import Mathlib

/-!
Verification of the in-memory TTL response cache of the `wewatch` repository
(`src/services/cacheService.ts`, class `CacheService`).

The cache is a JavaScript `Map<string, CacheEntry>` keyed by a normalized
string derived from `(kind, city, country)`.  We embed it shallowly:

* wall-clock times (`Date.now()`, milliseconds) become `Nat` values passed
  explicitly to each operation;
* the `Map` becomes an association list `List (String × CacheEntry T)`;
  a JavaScript `Map` never holds two entries with the same key, so states
  reachable from the empty cache satisfy `distinctKeys`;
* `Map.get` is first-match lookup, `Map.set` updates in place (preserving
  insertion order) or appends, `Map.delete` removes the entry with the
  key;
* string normalization `s.toLowerCase().replace(/\s+/g, '_')` becomes
  ASCII case folding (`Char.toLower`) followed by collapsing each maximal
  run of JavaScript whitespace to a single `'_'`.
-/

namespace CacheService

/-- The characters matched by the JavaScript regex class `\s`:
space, tab, line feed, vertical tab, form feed, carriage return, and the
Unicode space separators U+00A0, U+1680, U+2000..U+200A, U+2028, U+2029,
U+202F, U+205F, U+3000 and U+FEFF. -/
def jsWhitespace (c : Char) : Bool :=
  c == ' ' || c == '\t' || c == '\n' || c == '\r' ||
  c == '\x0b' || c == '\x0c' ||
  c.toNat == 0xa0 || c.toNat == 0x1680 ||
  (0x2000 <= c.toNat && c.toNat <= 0x200a) ||
  c.toNat == 0x2028 || c.toNat == 0x2029 || c.toNat == 0x202f ||
  c.toNat == 0x205f || c.toNat == 0x3000 || c.toNat == 0xfeff

/-- Replace each maximal run of whitespace by a single `'_'`
(the effect of `.replace(/\s+/g, '_')`).  The boolean state records
whether the previous character was whitespace (inside a run). -/
def collapseAux : List Char → Bool → List Char
  | [], _ => []
  | c :: rest, inWs =>
    if jsWhitespace c then
      if inWs then collapseAux rest true
      else '_' :: collapseAux rest true
    else
      c :: collapseAux rest false

/-- `l.toLowerCase().replace(/\s+/g, '_')` at the character-list level. -/
def normalizeChars (l : List Char) : List Char :=
  collapseAux (l.map Char.toLower) false

/-- The whitespace state left behind after scanning a character list,
starting from state `b`. -/
def wsState (b : Bool) : List Char → Bool
  | [] => b
  | c :: rest => wsState (jsWhitespace c) rest

/-- The `location` argument `{ city, country }` of the cache operations. -/
structure Location where
  city : String
  country : String
  deriving DecidableEq

/-- `CacheEntry<T>` from `cacheService.ts`. -/
structure CacheEntry (T : Type) where
  data : T
  timestamp : Nat
  expiresAt : Nat
  deriving DecidableEq

/-- The `Map<string, CacheEntry<any>>` backing store, as an association
list; reachable states have pairwise-distinct keys. -/
abbrev Cache (T : Type) := List (String × CacheEntry T)

variable {T : Type}

/-- `Map.get`: first entry whose key matches. -/
def mapGet : Cache T → String → Option (CacheEntry T)
  | [], _ => none
  | (k2, e) :: rest, k => if k2 = k then some e else mapGet rest k

/-- `Map.set`: replace the value in place if the key is present
(preserving position), otherwise append. -/
def mapSet : Cache T → String → CacheEntry T → Cache T
  | [], k, e => [(k, e)]
  | (k2, e2) :: rest, k, e =>
    if k2 = k then (k, e) :: rest else (k2, e2) :: mapSet rest k e

/-- `Map.delete`: remove the entry with the given key.  (On distinct-key
states, all reachable ones, at most one entry matches, exactly as
`Map.delete` removes at most one entry.) -/
def mapDelete : Cache T → String → Cache T
  | [], _ => []
  | (k2, e) :: rest, k =>
    if k2 = k then mapDelete rest k else (k2, e) :: mapDelete rest k

/-- Reachability invariant of a JavaScript `Map`: no two entries share a
key. -/
def distinctKeys : Cache T → Bool
  | [] => true
  | (k, _) :: rest =>
    !(rest.any (fun p => decide (p.1 = k))) && distinctKeys rest

/-- `generateKey`: `` `${type}_${location.city}_${location.country}`
.toLowerCase().replace(/\s+/g, '_') ``. -/
def generateKey (type : String) (location : Location) : String :=
  String.mk (normalizeChars
    (type.data ++ ('_' :: location.city.data) ++ ('_' :: location.country.data)))

/-- `getTTL`: the `switch` on the data type, in milliseconds. -/
def getTTL (type : String) : Nat :=
  match type with
  | "weather" => 10 * 60 * 1000
  | "news" => 30 * 60 * 1000
  | "satellite" => 60 * 60 * 1000
  | "criticalIssues" => 15 * 60 * 1000
  | "environmental_data" => 5 * 60 * 1000
  | _ => 5 * 60 * 1000

/-- `isValid`: `Date.now() < entry.expiresAt`. -/
def isValid (now : Nat) (entry : CacheEntry T) : Bool :=
  decide (now < entry.expiresAt)

/-- `get`: look the key up; on a missing or invalid entry, delete the key
and report a miss (`none`); on a hit return the stored data unchanged.
Returns the result together with the (possibly updated) store. -/
def get (c : Cache T) (type : String) (location : Location) (now : Nat) :
    Option T × Cache T :=
  let key := generateKey type location
  match mapGet c key with
  | none => (none, mapDelete c key)
  | some entry =>
    if isValid now entry then (some entry.data, c)
    else (none, mapDelete c key)

/-- `set`: stamp a fresh entry with `timestamp = Date.now()` and
`expiresAt = Date.now() + getTTL(type)` and write it unconditionally. -/
def set (c : Cache T) (type : String) (location : Location) (data : T)
    (now : Nat) : Cache T :=
  mapSet c (generateKey type location)
    { data := data, timestamp := now, expiresAt := now + getTTL type }

/-- `cleanup`: delete every entry with `now >= entry.expiresAt`. -/
def cleanup (c : Cache T) (now : Nat) : Cache T :=
  c.filter (fun p => !(decide (now ≥ p.2.expiresAt)))

/-- `clear`: empty the whole store. -/
def clear (_ : Cache T) : Cache T := []

/-- The record returned by `getStats`. -/
structure CacheStats where
  totalEntries : Nat
  validEntries : Nat
  expiredEntries : Nat
  deriving DecidableEq

/-- `getStats`: count all entries, the valid ones (`now < expiresAt`) and
the expired ones. -/
def getStats (c : Cache T) (now : Nat) : CacheStats :=
  { totalEntries := c.length
    validEntries := c.countP (fun p => decide (now < p.2.expiresAt))
    expiredEntries := c.countP (fun p => !(decide (now < p.2.expiresAt))) }

/-- The cache operations, used to state temporal properties about
sequences of calls. -/
inductive CacheOp (T : Type) where
  | getOp (type : String) (location : Location)
  | setOp (type : String) (location : Location) (data : T)
  | cleanupOp
  | clearOp
  deriving DecidableEq

/-- Run one operation at wall-clock time `t` and keep the resulting
store. -/
def applyOp (c : Cache T) : CacheOp T → Nat → Cache T
  | .getOp ty loc, t => (get c ty loc t).snd
  | .setOp ty loc d, t => set c ty loc d t
  | .cleanupOp, t => cleanup c t
  | .clearOp, _ => clear c

/-- Run a timed sequence of operations from a starting state. -/
def runOps (c : Cache T) : List (CacheOp T × Nat) → Cache T
  | [] => c
  | (op, t) :: rest => runOps (applyOp c op t) rest

/-- Does the operation write (via `set`) the given derived key? -/
def isSetOn (k : String) : CacheOp T → Bool
  | .setOp ty loc _ => decide (generateKey ty loc = k)
  | _ => false

/-! ### Lemmas about the `Map` model -/

theorem mapGet_mapSet_self (c : Cache T) (k : String) (e : CacheEntry T) :
    mapGet (mapSet c k e) k = some e := by
  induction c with
  | nil => simp [mapSet, mapGet]
  | cons p rest ih =>
    obtain ⟨k2, e2⟩ := p
    by_cases h : k2 = k <;> simp [mapSet, mapGet, h, ih]

theorem mapGet_mapSet_ne (c : Cache T) (k k2 : String) (e : CacheEntry T)
    (h : k2 ≠ k) : mapGet (mapSet c k e) k2 = mapGet c k2 := by
  have h2 : ¬(k = k2) := fun hh => h hh.symm
  induction c with
  | nil => simp [mapSet, mapGet, h2]
  | cons p rest ih =>
    obtain ⟨k3, e3⟩ := p
    by_cases h3 : k3 = k
    · subst h3
      simp [mapSet, mapGet, h2]
    · by_cases h4 : k3 = k2
      · subst h4
        simp [mapSet, mapGet, h3]
      · simp [mapSet, mapGet, h3, h4, ih]

theorem mapGet_mapDelete_self (c : Cache T) (k : String) :
    mapGet (mapDelete c k) k = none := by
  induction c with
  | nil => rfl
  | cons p rest ih =>
    obtain ⟨k2, e2⟩ := p
    by_cases h : k2 = k <;> simp [mapDelete, mapGet, h, ih]

theorem mapGet_mapDelete_ne (c : Cache T) (k k2 : String) (h : k2 ≠ k) :
    mapGet (mapDelete c k2) k = mapGet c k := by
  induction c with
  | nil => rfl
  | cons p rest ih =>
    obtain ⟨k3, e3⟩ := p
    by_cases h3 : k3 = k2
    · subst h3
      have h4 : ¬(k3 = k) := fun hh => h (hh ▸ rfl)
      simp [mapDelete, mapGet, h4, ih]
    · by_cases h4 : k3 = k
      · subst h4
        simp [mapDelete, mapGet, h3, ih]
      · simp [mapDelete, mapGet, h3, h4, ih]

theorem mapGet_eq_none_of_any_false (c : Cache T) (k : String)
    (h : c.any (fun p => decide (p.1 = k)) = false) : mapGet c k = none := by
  induction c with
  | nil => rfl
  | cons p rest ih =>
    rw [List.any_cons] at h
    rcases Bool.or_eq_false_iff.mp h with ⟨h1, h2⟩
    simp [mapGet, of_decide_eq_false h1, ih h2]

theorem mapDelete_eq_self_of_any_false (c : Cache T) (k : String)
    (h : c.any (fun p => decide (p.1 = k)) = false) : mapDelete c k = c := by
  induction c with
  | nil => rfl
  | cons p rest ih =>
    rw [List.any_cons] at h
    rcases Bool.or_eq_false_iff.mp h with ⟨h1, h2⟩
    simp [mapDelete, of_decide_eq_false h1, ih h2]

theorem length_mapDelete (c : Cache T) (k : String) (e : CacheEntry T)
    (hdk : distinctKeys c = true) (h : mapGet c k = some e) :
    (mapDelete c k).length + 1 = c.length := by
  induction c with
  | nil => simp [mapGet] at h
  | cons p rest ih =>
    obtain ⟨k2, e2⟩ := p
    rw [distinctKeys, Bool.and_eq_true] at hdk
    rcases hdk with ⟨hany, hdk2⟩
    rw [Bool.not_eq_true'] at hany
    by_cases h2 : k2 = k
    · subst h2
      rw [mapDelete, if_pos rfl, mapDelete_eq_self_of_any_false rest k2 hany]
      simp
    · rw [mapGet, if_neg h2] at h
      rw [mapDelete, if_neg h2]
      have := ih hdk2 h
      simp only [List.length_cons]
      omega

theorem any_mapDelete_false (c : Cache T) (k : String)
    (q : String × CacheEntry T → Bool) (h : c.any q = false) :
    (mapDelete c k).any q = false := by
  induction c with
  | nil => rfl
  | cons p rest ih =>
    rw [List.any_cons] at h
    rcases Bool.or_eq_false_iff.mp h with ⟨h1, h2⟩
    obtain ⟨k2, e2⟩ := p
    by_cases h3 : k2 = k <;> simp [mapDelete, h3, List.any_cons, h1, ih h2]

theorem distinctKeys_mapDelete (c : Cache T) (k : String)
    (hdk : distinctKeys c = true) : distinctKeys (mapDelete c k) = true := by
  induction c with
  | nil => rfl
  | cons p rest ih =>
    obtain ⟨k2, e2⟩ := p
    rw [distinctKeys, Bool.and_eq_true] at hdk
    rcases hdk with ⟨hany, hdk2⟩
    rw [Bool.not_eq_true'] at hany
    by_cases h3 : k2 = k
    · simp [mapDelete, h3, ih hdk2]
    · simp [mapDelete, h3, distinctKeys, ih hdk2,
        any_mapDelete_false rest k _ hany]

theorem any_filter_false (c : Cache T) (p q : String × CacheEntry T → Bool)
    (h : c.any q = false) : (c.filter p).any q = false := by
  induction c with
  | nil => rfl
  | cons a rest ih =>
    rw [List.any_cons] at h
    rcases Bool.or_eq_false_iff.mp h with ⟨h1, h2⟩
    by_cases hp : p a <;> simp [List.filter_cons, hp, List.any_cons, h1, ih h2]

theorem distinctKeys_filter (c : Cache T) (p : String × CacheEntry T → Bool)
    (hdk : distinctKeys c = true) : distinctKeys (c.filter p) = true := by
  induction c with
  | nil => rfl
  | cons a rest ih =>
    obtain ⟨k2, e2⟩ := a
    rw [distinctKeys, Bool.and_eq_true] at hdk
    rcases hdk with ⟨hany, hdk2⟩
    rw [Bool.not_eq_true'] at hany
    by_cases hp : p (k2, e2)
    · simp [List.filter_cons, hp, distinctKeys, ih hdk2,
        any_filter_false rest p _ hany]
    · simp [List.filter_cons, hp, ih hdk2]

theorem any_mapSet (c : Cache T) (k q : String) (e : CacheEntry T) :
    (mapSet c k e).any (fun p => decide (p.1 = q)) =
      (c.any (fun p => decide (p.1 = q)) || decide (k = q)) := by
  induction c with
  | nil =>
    show (decide (k = q) || false) = (false || decide (k = q))
    rw [Bool.or_false, Bool.false_or]
  | cons p rest ih =>
    obtain ⟨k2, e2⟩ := p
    by_cases h : k2 = k
    · subst h
      have hstep : mapSet ((k2, e2) :: rest) k2 e = (k2, e) :: rest := by
        simp [mapSet]
      rw [hstep, List.any_cons, List.any_cons]
      cases hq : decide (k2 = q) <;>
        cases hr : rest.any (fun p => decide (p.1 = q)) <;> simp [hq, hr]
    · have hstep : mapSet ((k2, e2) :: rest) k e = (k2, e2) :: mapSet rest k e := by
        simp [mapSet, h]
      rw [hstep, List.any_cons, List.any_cons, ih, Bool.or_assoc]

theorem distinctKeys_mapSet (c : Cache T) (k : String) (e : CacheEntry T)
    (hdk : distinctKeys c = true) : distinctKeys (mapSet c k e) = true := by
  induction c with
  | nil => simp [mapSet, distinctKeys]
  | cons p rest ih =>
    obtain ⟨k2, e2⟩ := p
    rw [distinctKeys, Bool.and_eq_true] at hdk
    rcases hdk with ⟨hany, hdk2⟩
    rw [Bool.not_eq_true'] at hany
    by_cases h : k2 = k
    · subst h
      simp [mapSet, distinctKeys, hany, hdk2]
    · have hkk2 : decide (k = k2) = false :=
        decide_eq_false (fun hh : k = k2 => h hh.symm)
      simp [mapSet, h, distinctKeys, ih hdk2, any_mapSet, hany, hkk2]

theorem mapGet_filter_none (c : Cache T) (p : String × CacheEntry T → Bool)
    (k : String) (h : mapGet c k = none) : mapGet (c.filter p) k = none := by
  induction c with
  | nil => rfl
  | cons a rest ih =>
    obtain ⟨k2, e2⟩ := a
    by_cases h2 : k2 = k
    · simp [mapGet, h2] at h
    · rw [mapGet, if_neg h2] at h
      by_cases hp : p (k2, e2) <;>
        simp [List.filter_cons, hp, mapGet, h2, ih h]

/-! ### Lemmas about the cache operations -/

theorem mapGet_cleanup_valid (c : Cache T) (now : Nat) (k : String)
    (e : CacheEntry T) (h : mapGet c k = some e) (hv : now < e.expiresAt) :
    mapGet (cleanup c now) k = some e := by
  induction c with
  | nil => simp [mapGet] at h
  | cons p rest ih =>
    obtain ⟨k2, e2⟩ := p
    by_cases h2 : k2 = k
    · rw [mapGet, if_pos h2] at h
      injection h with he
      subst he
      simp [cleanup, List.filter_cons, Nat.not_le.mpr hv, mapGet, h2]
    · rw [mapGet, if_neg h2] at h
      have hrest := ih h
      rw [cleanup] at hrest
      by_cases hx : now ≥ e2.expiresAt <;>
        simp [cleanup, List.filter_cons, hx, mapGet, h2, hrest]

theorem mapGet_cleanup_expired (c : Cache T) (now : Nat) (k : String)
    (e : CacheEntry T) (hdk : distinctKeys c = true) (h : mapGet c k = some e)
    (hx : e.expiresAt ≤ now) : mapGet (cleanup c now) k = none := by
  induction c with
  | nil => rfl
  | cons p rest ih =>
    obtain ⟨k2, e2⟩ := p
    rw [distinctKeys, Bool.and_eq_true] at hdk
    rcases hdk with ⟨hany, hdk2⟩
    rw [Bool.not_eq_true'] at hany
    by_cases h2 : k2 = k
    · rw [mapGet, if_pos h2] at h
      injection h with he
      subst he
      subst h2
      have hrest : mapGet rest k2 = none :=
        mapGet_eq_none_of_any_false rest k2 hany
      have hfil := mapGet_filter_none rest
        (fun p => !(decide (now ≥ p.2.expiresAt))) k2 hrest
      simp [cleanup, List.filter_cons, hx, hfil]
    · rw [mapGet, if_neg h2] at h
      have hrest := ih hdk2 h
      rw [cleanup] at hrest
      by_cases hb : now ≥ e2.expiresAt <;>
        simp [cleanup, List.filter_cons, hb, mapGet, h2, hrest]

theorem mapGet_cleanup_or (c : Cache T) (now : Nat) (k : String)
    (hdk : distinctKeys c = true) :
    mapGet (cleanup c now) k = none ∨ mapGet (cleanup c now) k = mapGet c k := by
  cases h : mapGet c k with
  | none => exact Or.inl (mapGet_filter_none c _ k h)
  | some e =>
    by_cases hv : now < e.expiresAt
    · exact Or.inr (mapGet_cleanup_valid c now k e h hv)
    · exact Or.inl (mapGet_cleanup_expired c now k e hdk h (Nat.not_lt.mp hv))

theorem getTTL_pos (ty : String) : 0 < getTTL ty := by
  unfold getTTL
  split <;> norm_num

theorem length_countP (c : Cache T) (p : String × CacheEntry T → Bool) :
    c.length = c.countP p + c.countP (fun a => !p a) := by
  induction c with
  | nil => rfl
  | cons a rest ih =>
    cases h : p a <;> simp [List.countP_cons, h, ih] <;> omega

theorem get_snd_cases (c : Cache T) (ty : String) (loc : Location) (now : Nat) :
    (get c ty loc now).snd = c ∨
    (get c ty loc now).snd = mapDelete c (generateKey ty loc) := by
  simp only [get]
  cases h : mapGet c (generateKey ty loc) with
  | none => exact Or.inr rfl
  | some e =>
    by_cases hv : isValid now e
    · left
      simp [hv]
    · right
      simp [hv]

theorem get_eq_of_none (c : Cache T) (ty : String) (loc : Location)
    (now : Nat) (h : mapGet c (generateKey ty loc) = none) :
    get c ty loc now = (none, mapDelete c (generateKey ty loc)) := by
  simp only [get, h]

theorem get_eq_of_valid (c : Cache T) (ty : String) (loc : Location)
    (now : Nat) (e : CacheEntry T)
    (h : mapGet c (generateKey ty loc) = some e) (hv : now < e.expiresAt) :
    get c ty loc now = (some e.data, c) := by
  simp only [get, h]
  rw [if_pos (show isValid now e = true from decide_eq_true hv)]

theorem get_eq_of_expired (c : Cache T) (ty : String) (loc : Location)
    (now : Nat) (e : CacheEntry T)
    (h : mapGet c (generateKey ty loc) = some e) (hx : e.expiresAt ≤ now) :
    get c ty loc now = (none, mapDelete c (generateKey ty loc)) := by
  simp only [get, h]
  rw [if_neg (show ¬(isValid now e = true) from by simp [isValid]; omega)]

theorem get_after_set (c : Cache T) (ty ty2 : String) (loc loc2 : Location)
    (d : T) (now : Nat) (hk : generateKey ty2 loc2 = generateKey ty loc)
    (ht : 0 < getTTL ty) :
    (get (set c ty loc d now) ty2 loc2 now).fst = some d := by
  have hv : isValid now
      ({ data := d, timestamp := now, expiresAt := now + getTTL ty } :
        CacheEntry T) = true := by
    simp [isValid]
    omega
  simp only [get, set, hk, mapGet_mapSet_self, hv, if_true]

/-! ### Lemmas about operation sequences -/

theorem distinctKeys_applyOp (c : Cache T) (op : CacheOp T) (t : Nat)
    (hdk : distinctKeys c = true) : distinctKeys (applyOp c op t) = true := by
  cases op with
  | getOp ty loc =>
    rcases get_snd_cases c ty loc t with h | h
    · show distinctKeys (get c ty loc t).snd = true
      rw [h]
      exact hdk
    · show distinctKeys (get c ty loc t).snd = true
      rw [h]
      exact distinctKeys_mapDelete c _ hdk
  | setOp ty loc d => exact distinctKeys_mapSet c _ _ hdk
  | cleanupOp => exact distinctKeys_filter c _ hdk
  | clearOp => rfl

theorem applyOp_mapGet (c : Cache T) (op : CacheOp T) (t : Nat) (k : String)
    (hdk : distinctKeys c = true) (hop : isSetOn k op = false) :
    mapGet (applyOp c op t) k = none ∨ mapGet (applyOp c op t) k = mapGet c k := by
  cases op with
  | getOp ty loc =>
    have hred : applyOp c (CacheOp.getOp ty loc) t = (get c ty loc t).snd := rfl
    rcases get_snd_cases c ty loc t with h | h
    · right
      rw [hred, h]
    · by_cases hkey : generateKey ty loc = k
      · left
        rw [hred, h, hkey]
        exact mapGet_mapDelete_self c k
      · right
        rw [hred, h]
        exact mapGet_mapDelete_ne c k _ hkey
  | setOp ty loc d =>
    right
    have hop2 : decide (generateKey ty loc = k) = false := hop
    exact mapGet_mapSet_ne c _ k _ (fun hh => of_decide_eq_false hop2 hh.symm)
  | cleanupOp => exact mapGet_cleanup_or c t k hdk
  | clearOp =>
    left
    rfl

theorem runOps_mapGet (ops : List (CacheOp T × Nat)) (c : Cache T) (k : String)
    (hdk : distinctKeys c = true)
    (hnoset : ops.all (fun p => !(isSetOn k p.1)) = true) :
    mapGet (runOps c ops) k = none ∨ mapGet (runOps c ops) k = mapGet c k := by
  induction ops generalizing c with
  | nil => exact Or.inr rfl
  | cons p rest ih =>
    obtain ⟨op, t⟩ := p
    rw [List.all_cons, Bool.and_eq_true] at hnoset
    rcases hnoset with ⟨hop1, hrest⟩
    rw [Bool.not_eq_true'] at hop1
    have hdk2 := distinctKeys_applyOp c op t hdk
    have step := applyOp_mapGet c op t k hdk hop1
    have hred : runOps c ((op, t) :: rest) = runOps (applyOp c op t) rest := rfl
    rcases ih (applyOp c op t) hdk2 hrest with h | h
    · left
      rw [hred, h]
    · rcases step with h2 | h2
      · left
        rw [hred, h, h2]
      · right
        rw [hred, h, h2]

/-! ### Lemmas about key normalization -/

theorem collapseAux_cons (c : Char) (rest : List Char) (b : Bool) :
    collapseAux (c :: rest) b =
      if jsWhitespace c then
        (if b then collapseAux rest true else '_' :: collapseAux rest true)
      else c :: collapseAux rest false := rfl

theorem wsState_cons (b : Bool) (c : Char) (rest : List Char) :
    wsState b (c :: rest) = wsState (jsWhitespace c) rest := rfl

theorem collapseAux_append (xs ys : List Char) (b : Bool) :
    collapseAux (xs ++ ys) b = collapseAux xs b ++ collapseAux ys (wsState b xs) := by
  induction xs generalizing b with
  | nil => rfl
  | cons c rest ih =>
    rw [List.cons_append, collapseAux_cons, collapseAux_cons, wsState_cons]
    cases hws : jsWhitespace c with
    | false =>
      rw [if_neg Bool.false_ne_true, if_neg Bool.false_ne_true, ih,
        List.cons_append]
    | true =>
      rw [if_pos rfl, if_pos rfl]
      cases b with
      | false =>
        rw [if_neg Bool.false_ne_true, if_neg Bool.false_ne_true, ih,
          List.cons_append]
      | true => rw [if_pos rfl, if_pos rfl, ih]

theorem collapseAux_cons_of_not_ws (c : Char) (l : List Char) (b : Bool)
    (h : jsWhitespace c = false) :
    collapseAux (c :: l) b = c :: collapseAux l false := by
  rw [collapseAux_cons, h, if_neg Bool.false_ne_true]

theorem jsWhitespace_underscore : jsWhitespace '_' = false := by decide

theorem toLower_underscore : Char.toLower '_' = '_' := by decide

/-- Because the separator `'_'` is not whitespace, normalization of the
joined string `` `${type}_${city}_${country}` `` splits into the
normalizations of the three segments. -/
theorem normalizeChars_append3 (a b c : List Char) :
    normalizeChars (a ++ ('_' :: b) ++ ('_' :: c)) =
      normalizeChars a ++ '_' :: normalizeChars b ++ '_' :: normalizeChars c := by
  unfold normalizeChars
  rw [List.map_append, List.map_append, List.map_cons, List.map_cons,
    toLower_underscore, collapseAux_append, collapseAux_append,
    collapseAux_cons_of_not_ws _ _ _ jsWhitespace_underscore,
    collapseAux_cons_of_not_ws _ _ _ jsWhitespace_underscore]

/-- The derived key is the three normalized segments joined by `'_'`. -/
theorem generateKey_data (ty : String) (loc : Location) :
    (generateKey ty loc).data =
      normalizeChars ty.data ++ '_' :: normalizeChars loc.city.data ++
        '_' :: normalizeChars loc.country.data := by
  unfold generateKey
  rw [show (String.mk (normalizeChars (ty.data ++ ('_' :: loc.city.data) ++
      ('_' :: loc.country.data)))).data =
      normalizeChars (ty.data ++ ('_' :: loc.city.data) ++
        ('_' :: loc.country.data)) from rfl]
  rw [normalizeChars_append3]


theorem string_eq_of_data_eq (s t : String) (h : s.data = t.data) : s = t := by
  cases s
  cases t
  exact congrArg String.mk h

/-! ### The claims -/

/-- Claim C1: for every kind, location and data, `set(kind, location, data)`
followed immediately by `get(kind, location2)` at the same instant returns
exactly `data`, provided the TTL of the kind is positive, for any spelling
`location2` that normalizes to the same key. -/
theorem c1_set_get_roundtrip (T : Type) (c : Cache T) (kind : String)
    (location location2 : Location) (data : T) (now : Nat)
    (hkey : generateKey kind location2 = generateKey kind location)
    (httl : 0 < getTTL kind) :
    (get (set c kind location data now) kind location2 now).fst = some data :=
  get_after_set c kind kind location location2 data now hkey httl

theorem c1_set_get_roundtrip_witness :
    (get (set ([] : Cache Nat) "weather" ⟨"new   york", "us"⟩ 7 0) "weather"
        ⟨"New York", "US"⟩ 0).fst = some 7 :=
  c1_set_get_roundtrip Nat [] "weather" ⟨"new   york", "us"⟩ ⟨"New York", "US"⟩
    7 0 (by decide) (by decide)

/-- Claim C2: `get(kind, location)` misses exactly when the derived key has no
entry or `now >= expiresAt`; an expired entry is deleted (the total entry
count drops by one), and a live entry's stored data is returned. -/
theorem c2_get_miss_semantics (T : Type) (c : Cache T) (kind : String)
    (loc : Location) (now : Nat) (hdk : distinctKeys c = true) :
    ((get c kind loc now).fst = none ↔
      (mapGet c (generateKey kind loc) = none ∨
        ∃ e, mapGet c (generateKey kind loc) = some e ∧ e.expiresAt ≤ now)) ∧
    (∀ e, mapGet c (generateKey kind loc) = some e → e.expiresAt ≤ now →
      mapGet (get c kind loc now).snd (generateKey kind loc) = none ∧
      (getStats (get c kind loc now).snd now).totalEntries + 1 =
        (getStats c now).totalEntries) ∧
    (∀ e, mapGet c (generateKey kind loc) = some e → now < e.expiresAt →
      (get c kind loc now).fst = some e.data) := by
  refine ⟨⟨?_, ?_⟩, ?_, ?_⟩
  · intro hmiss
    cases h : mapGet c (generateKey kind loc) with
    | none => exact Or.inl rfl
    | some e =>
      by_cases hv : now < e.expiresAt
      · rw [get_eq_of_valid c kind loc now e h hv] at hmiss
        exact absurd hmiss (by simp)
      · exact Or.inr ⟨e, rfl, Nat.not_lt.mp hv⟩
  · intro hor
    rcases hor with h | ⟨e, h, hx⟩
    · rw [get_eq_of_none c kind loc now h]
    · rw [get_eq_of_expired c kind loc now e h hx]
  · intro e h hx
    rw [get_eq_of_expired c kind loc now e h hx]
    refine ⟨mapGet_mapDelete_self c _, ?_⟩
    simp only [getStats]
    exact length_mapDelete c _ e hdk h
  · intro e h hv
    rw [get_eq_of_valid c kind loc now e h hv]

theorem c2_get_miss_semantics_witness :
    mapGet ((get [("satellite_lagos_ng",
          ({ data := "clear", timestamp := 0, expiresAt := 3600000 } :
            CacheEntry String))] "satellite" ⟨"Lagos", "NG"⟩ 3600001).snd)
        (generateKey "satellite" ⟨"Lagos", "NG"⟩) = none ∧
    (getStats ((get [("satellite_lagos_ng",
          ({ data := "clear", timestamp := 0, expiresAt := 3600000 } :
            CacheEntry String))] "satellite" ⟨"Lagos", "NG"⟩ 3600001).snd)
        3600001).totalEntries + 1 =
      (getStats [("satellite_lagos_ng",
          ({ data := "clear", timestamp := 0, expiresAt := 3600000 } :
            CacheEntry String))] 3600001).totalEntries :=
  (c2_get_miss_semantics String
      [("satellite_lagos_ng",
        ({ data := "clear", timestamp := 0, expiresAt := 3600000 } :
          CacheEntry String))] "satellite" ⟨"Lagos", "NG"⟩ 3600001
      (by decide)).2.1
    { data := "clear", timestamp := 0, expiresAt := 3600000 }
    (by decide) (by decide)

/-- Claim C3: key derivation is deterministic, case-insensitive and collapses
whitespace runs to one separator: for every kind, a `set` under city
`new   york` / country `us` is returned by a `get` under city `New York` /
country `US` (equal derived keys), while cities `New York City` and
`New York` derive distinct keys. -/
theorem c3_generateKey_normalization (kind country : String) (T : Type)
    (c : Cache T) (data : T) (now : Nat) :
    generateKey kind ⟨"new   york", "us"⟩ = generateKey kind ⟨"New York", "US"⟩ ∧
    (get (set c kind ⟨"new   york", "us"⟩ data now) kind
        ⟨"New York", "US"⟩ now).fst = some data ∧
    generateKey kind ⟨"New York City", country⟩ ≠
      generateKey kind ⟨"New York", country⟩ := by
  have hcity : normalizeChars ("new   york".data) =
      normalizeChars ("New York".data) := by decide
  have hctry : normalizeChars ("us".data) = normalizeChars ("US".data) := by
    decide
  have hkey : generateKey kind ⟨"new   york", "us"⟩ =
      generateKey kind ⟨"New York", "US"⟩ := by
    apply string_eq_of_data_eq
    rw [generateKey_data, generateKey_data]
    rw [show (Location.mk "new   york" "us").city = "new   york" from rfl,
      show (Location.mk "new   york" "us").country = "us" from rfl,
      show (Location.mk "New York" "US").city = "New York" from rfl,
      show (Location.mk "New York" "US").country = "US" from rfl,
      hcity, hctry]
  refine ⟨hkey, ?_, ?_⟩
  · exact get_after_set c kind kind _ _ data now hkey.symm (getTTL_pos kind)
  · intro h
    have hd := congrArg String.data h
    rw [generateKey_data, generateKey_data] at hd
    have hlen := congrArg List.length hd
    simp only [List.length_append, List.length_cons] at hlen
    have hb1 : (normalizeChars
        ['N', 'e', 'w', ' ', 'Y', 'o', 'r', 'k', ' ', 'C', 'i', 't', 'y']).length
        = 13 := by decide
    have hb2 : (normalizeChars ['N', 'e', 'w', ' ', 'Y', 'o', 'r', 'k']).length
        = 8 := by decide
    rw [hb1, hb2] at hlen
    omega

theorem c3_generateKey_normalization_witness :
    (get (set ([] : Cache Nat) "weather" ⟨"new   york", "us"⟩ 3 0) "weather"
        ⟨"New York", "US"⟩ 0).fst = some 3 :=
  (c3_generateKey_normalization "weather" "US" Nat [] 3 0).2.1

/-- Claim C4: the TTL is a pure function of the kind string: 10 minutes for
weather, 30 for news, 60 for satellite, 15 for criticalIssues, 5 for
environmental_data and 5 for every other kind; every entry written by `set`
has `expiresAt = timestamp + getTTL kind`. -/
theorem c4_ttl_values (kind : String)
    (hk : kind ∉ ["weather", "news", "satellite", "criticalIssues",
      "environmental_data"]) :
    getTTL "weather" = 10 * 60 * 1000 ∧
    getTTL "news" = 30 * 60 * 1000 ∧
    getTTL "satellite" = 60 * 60 * 1000 ∧
    getTTL "criticalIssues" = 15 * 60 * 1000 ∧
    getTTL "environmental_data" = 5 * 60 * 1000 ∧
    getTTL kind = 5 * 60 * 1000 ∧
    ∀ (S : Type) (c : Cache S) (ty : String) (loc : Location) (d : S)
      (now : Nat),
      mapGet (set c ty loc d now) (generateKey ty loc) =
        some { data := d, timestamp := now, expiresAt := now + getTTL ty } := by
  refine ⟨rfl, rfl, rfl, rfl, rfl, ?_, ?_⟩
  · simp only [List.mem_cons, List.not_mem_nil, or_false, not_or] at hk
    obtain ⟨h1, h2, h3, h4, h5⟩ := hk
    unfold getTTL
    split <;> simp_all
  · intro S c ty loc d now
    exact mapGet_mapSet_self c (generateKey ty loc) _

theorem c4_ttl_values_witness : getTTL "foo" = 5 * 60 * 1000 :=
  (c4_ttl_values "foo" (by decide)).2.2.2.2.2.1

/-- Claim C5: `cleanup` deletes exactly the entries with `expiresAt <= now`,
keeps every live entry unchanged (same data, timestamp and expiry), and a
second `cleanup` at the same instant removes nothing. -/
theorem c5_cleanup_correct (T : Type) (c : Cache T) (now : Nat)
    (hdk : distinctKeys c = true) :
    (∀ p : String × CacheEntry T,
      p ∈ cleanup c now ↔ p ∈ c ∧ now < p.2.expiresAt) ∧
    (∀ k e, mapGet c k = some e → now < e.expiresAt →
      mapGet (cleanup c now) k = some e) ∧
    (∀ k e, mapGet c k = some e → e.expiresAt ≤ now →
      mapGet (cleanup c now) k = none) ∧
    cleanup (cleanup c now) now = cleanup c now := by
  refine ⟨?_, ?_, ?_, ?_⟩
  · intro p
    rw [cleanup, List.mem_filter]
    simp [Nat.not_le]
  · exact fun k e h hv => mapGet_cleanup_valid c now k e h hv
  · exact fun k e h hx => mapGet_cleanup_expired c now k e hdk h hx
  · rw [cleanup, cleanup, List.filter_filter]
    simp

theorem c5_cleanup_correct_witness :
    mapGet (cleanup [("a", ({ data := 1, timestamp := 0, expiresAt := 5 } :
        CacheEntry Nat)),
      ("b", { data := 2, timestamp := 0, expiresAt := 20 })] 10) "a" = none ∧
    mapGet (cleanup [("a", ({ data := 1, timestamp := 0, expiresAt := 5 } :
        CacheEntry Nat)),
      ("b", { data := 2, timestamp := 0, expiresAt := 20 })] 10) "b" =
      some { data := 2, timestamp := 0, expiresAt := 20 } :=
  ⟨(c5_cleanup_correct Nat
      [("a", { data := 1, timestamp := 0, expiresAt := 5 }),
        ("b", { data := 2, timestamp := 0, expiresAt := 20 })] 10
      (by decide)).2.2.1 "a" { data := 1, timestamp := 0, expiresAt := 5 }
      (by decide) (by decide),
    (c5_cleanup_correct Nat
      [("a", { data := 1, timestamp := 0, expiresAt := 5 }),
        ("b", { data := 2, timestamp := 0, expiresAt := 20 })] 10
      (by decide)).2.1 "b" { data := 2, timestamp := 0, expiresAt := 20 }
      (by decide) (by decide)⟩

/-- Claim C6: `set` overwrites unconditionally: after two `set`s whose inputs
derive the same key, the entry holds only the second data, stamped with the
second write's timestamp and expiry, and a `get` under the first spelling
returns the second data. -/
theorem c6_set_overwrites (T : Type) (c : Cache T) (kind1 kind2 : String)
    (loc1 loc2 : Location) (d1 d2 : T) (t1 t2 : Nat)
    (hkey : generateKey kind1 loc1 = generateKey kind2 loc2) :
    mapGet (set (set c kind1 loc1 d1 t1) kind2 loc2 d2 t2)
        (generateKey kind1 loc1) =
      some { data := d2, timestamp := t2, expiresAt := t2 + getTTL kind2 } ∧
    (get (set (set c kind1 loc1 d1 t1) kind2 loc2 d2 t2) kind1 loc1 t2).fst =
      some d2 := by
  constructor
  · rw [hkey]
    exact mapGet_mapSet_self _ _ _
  · exact get_after_set _ kind2 kind1 loc2 loc1 d2 t2 hkey (getTTL_pos kind2)

theorem c6_set_overwrites_witness :
    (get (set (set ([] : Cache Nat) "environmental" ⟨"data paris", "fr"⟩ 1 0)
        "environmental_data" ⟨"paris", "fr"⟩ 2 5) "environmental"
        ⟨"data paris", "fr"⟩ 5).fst = some 2 :=
  (c6_set_overwrites Nat [] "environmental" "environmental_data"
    ⟨"data paris", "fr"⟩ ⟨"paris", "fr"⟩ 1 2 0 5 (by decide)).2

/-- Claim C7: after `clear()` every `get` for any key misses, and the
statistics report zero total, valid and expired entries. -/
theorem c7_clear_empties (T : Type) (c : Cache T) (kind : String)
    (loc : Location) (now : Nat) :
    (get (clear c) kind loc now).fst = none ∧
    getStats (clear c) now =
      { totalEntries := 0, validEntries := 0, expiredEntries := 0 } :=
  ⟨rfl, rfl⟩

/-- Claim C8: key derivation is not injective: distinct inputs collide —
city `a b` / country `c` and city `a` / country `b c` both derive `k_a_b_c`,
and kind `environmental` with city `data paris` collides with kind
`environmental_data` with city `paris` — so a `set` under one spelling is
returned by a `get` under the other. -/
theorem c8_generateKey_collisions :
    generateKey "k" ⟨"a b", "c"⟩ = generateKey "k" ⟨"a", "b c"⟩ ∧
    generateKey "k" ⟨"a b", "c"⟩ = "k_a_b_c" ∧
    Location.mk "a b" "c" ≠ Location.mk "a" "b c" ∧
    generateKey "environmental" ⟨"data paris", "fr"⟩ =
      generateKey "environmental_data" ⟨"paris", "fr"⟩ ∧
    (get (set ([] : Cache Nat) "k" ⟨"a b", "c"⟩ 42 0) "k" ⟨"a", "b c"⟩ 0).fst =
      some 42 := by
  decide

/-- Claim C9: a stale entry (one with `expiresAt <= t0`) never becomes valid
again under any later sequence of `get`, `cleanup` and `clear` calls and
`set`s of other keys, at non-decreasing times; only a fresh `set` of that key
could make it valid again. -/
theorem c9_stale_never_revalidates (T : Type) (c : Cache T) (k : String)
    (e : CacheEntry T) (t0 now2 : Nat) (ops : List (CacheOp T × Nat))
    (hdk : distinctKeys c = true)
    (hstale : mapGet c k = some e) (hexp : e.expiresAt ≤ t0)
    (hnoset : ops.all (fun p => !(isSetOn k p.1)) = true)
    (_htimes : ops.all (fun p => decide (t0 ≤ p.2)) = true)
    (hnow : t0 ≤ now2) :
    Option.all (fun e2 => !(isValid now2 e2)) (mapGet (runOps c ops) k) =
      true := by
  rcases runOps_mapGet ops c k hdk hnoset with h | h
  · rw [h]
    rfl
  · rw [h, hstale]
    show (!(isValid now2 e)) = true
    have hfalse : isValid now2 e = false := by
      simp [isValid]
      omega
    rw [hfalse]
    rfl

theorem c9_stale_never_revalidates_witness :
    Option.all (fun e2 => !(isValid 12 e2))
      (mapGet (runOps
        [("k", ({ data := 5, timestamp := 0, expiresAt := 7 } :
          CacheEntry Nat))]
        [(CacheOp.getOp "news" ⟨"x", "y"⟩, 9), (CacheOp.cleanupOp, 10)])
        "k") = true :=
  c9_stale_never_revalidates Nat
    [("k", { data := 5, timestamp := 0, expiresAt := 7 })] "k"
    { data := 5, timestamp := 0, expiresAt := 7 } 8 12
    [(CacheOp.getOp "news" ⟨"x", "y"⟩, 9), (CacheOp.cleanupOp, 10)]
    (by decide) (by decide) (by decide) (by decide) (by decide) (by decide)

/-- Claim C10: reads do not mutate: a hit `get` (with `now < expiresAt`)
returns the stored data and leaves the store identical (no access-time
refresh), and the statistics satisfy total = valid + expired. -/
theorem c10_get_hit_frame (T : Type) (c : Cache T) (kind : String)
    (loc : Location) (now : Nat) (e : CacheEntry T)
    (h : mapGet c (generateKey kind loc) = some e) (hv : now < e.expiresAt) :
    (get c kind loc now).snd = c ∧
    (get c kind loc now).fst = some e.data ∧
    (getStats c now).totalEntries =
      (getStats c now).validEntries + (getStats c now).expiredEntries := by
  refine ⟨?_, ?_, ?_⟩
  · rw [get_eq_of_valid c kind loc now e h hv]
  · rw [get_eq_of_valid c kind loc now e h hv]
  · simp only [getStats]
    exact length_countP c _

theorem c10_get_hit_frame_witness :
    (get [("weather_paris_fr", ({ data := 9, timestamp := 0, expiresAt := 100 } :
        CacheEntry Nat))] "weather" ⟨"Paris", "FR"⟩ 50).snd =
      [("weather_paris_fr", { data := 9, timestamp := 0, expiresAt := 100 })] ∧
    (get [("weather_paris_fr", ({ data := 9, timestamp := 0, expiresAt := 100 } :
        CacheEntry Nat))] "weather" ⟨"Paris", "FR"⟩ 50).fst = some 9 :=
  ⟨(c10_get_hit_frame Nat
      [("weather_paris_fr", { data := 9, timestamp := 0, expiresAt := 100 })]
      "weather" ⟨"Paris", "FR"⟩ 50 { data := 9, timestamp := 0, expiresAt := 100 }
      (by decide) (by decide)).1,
    (c10_get_hit_frame Nat
      [("weather_paris_fr", { data := 9, timestamp := 0, expiresAt := 100 })]
      "weather" ⟨"Paris", "FR"⟩ 50 { data := 9, timestamp := 0, expiresAt := 100 }
      (by decide) (by decide)).2.1⟩

end CacheService
